import Mathlib

/-!
Verification of the sequential GUID generator
(`src/SequentialGuidGenerator.ts`, class `SequentialGuidGenerator` and the
helpers around it).

Modelling conventions (shallow embedding of the TypeScript source):

* JS strings are modelled as `List Char`.
* Node `Buffer`s are modelled as `List Nat`, each entry a byte (`< 256` where
  it matters, stated as hypotheses).
* JS numbers on the code paths below are mathematical integers (every value
  involved stays far below 2^53, so IEEE doubles are exact), modelled as
  `Int`/`Nat`.  The 32-bit coercions performed by the JS bitwise operators
  (`>>>`, `<<`, `&`, `|`) are made explicit via `toUint32`/`toInt32`
  (reduction modulo 2^32, unsigned resp. two's-complement signed).
* `Date.now()` readings are an input stream `List Int` of millisecond values;
  each call to `Date.now()` in the source consumes one element.  `randomBytes`
  output is an input stream `List Nat`; each generated random byte consumes
  one element.
* The busy-wait / recursion in `getTimestamp` is modelled with explicit fuel;
  `none` means the modelled execution ran out of clock readings or fuel
  (i.e. the real code would still be spinning), never a result the code
  returns.
* Thrown `Error`s are modelled by `Except GuidError`; the constructor of
  `GuidError` records which `throw new Error('...')` site fired.
* A JS `Date` result is modelled by its time value in milliseconds as an
  exact rational (`ℚ`).  (A real `Date` truncates to whole milliseconds; all
  comparisons made below differ by far more than a millisecond, so nothing
  hinges on that truncation.)
-/

namespace SeqGuid

/-- Error conditions thrown by the source, by `throw new Error(...)` site:
    `invalidFormat`  = 'Invalid GUID format' (in `guidToBuffer`),
    `invalidCount`   = 'Count must be a positive number' (in `generateBatch`),
    `invalidMachineId` = 'Machine ID must be exactly 4 bytes' (constructor). -/
inductive GuidError where
  | invalidFormat
  | invalidCount
  | invalidMachineId
deriving DecidableEq, Repr

instance {ε α : Type} [DecidableEq ε] [DecidableEq α] :
    DecidableEq (Except ε α) := fun x y => by
  cases x with
  | error a =>
    cases y with
    | error b =>
      exact if h : a = b then isTrue (by rw [h])
        else isFalse (fun hc => h (by injection hc))
    | ok b => exact isFalse (fun hc => Except.noConfusion hc)
  | ok a =>
    cases y with
    | error b => exact isFalse (fun hc => Except.noConfusion hc)
    | ok b =>
      exact if h : a = b then isTrue (by rw [h])
        else isFalse (fun hc => h (by injection hc))

/-! ### Bytes, hex digits and the codec (`formatGuid`, `isValidGuid`,
`guidToBuffer` of the source) -/

/-- One lowercase hex digit, as produced by Node's `buffer.toString('hex')`:
codepoints 48 = `0` and 87 + 10 = 97 = `a`. -/
def hexDigitChar (n : Nat) : Char :=
  if n < 10 then Char.ofNat (48 + n) else Char.ofNat (87 + n)

/-- The two lowercase hex chars of one byte (high nibble first), as in
Node's `toString('hex')`. -/
def byteToHex (b : Nat) : List Char :=
  [hexDigitChar (b / 16), hexDigitChar (b % 16)]

/-- Node `buffer.toString('hex')` over a byte list (lowercase). -/
def bytesToHex (l : List Nat) : List Char :=
  (l.map byteToHex).flatten

/-- `formatGuid` (source lines 155-165): hex groups of 4,2,2,2,6 bytes,
uppercased, joined with `-`. -/
def formatGuid (b : List Nat) : List Char :=
  (bytesToHex (b.take 4)).map Char.toUpper ++
    '-' :: (bytesToHex ((b.drop 4).take 2)).map Char.toUpper ++
    '-' :: (bytesToHex ((b.drop 6).take 2)).map Char.toUpper ++
    '-' :: (bytesToHex ((b.drop 8).take 2)).map Char.toUpper ++
    '-' :: (bytesToHex ((b.drop 10).take 6)).map Char.toUpper

/-- The character class `[0-9a-f]` of the source regex together with its `i`
(case-insensitive) flag: codepoints 48-57 (`0`-`9`), 97-102 (`a`-`f`),
65-70 (`A`-`F`). -/
def isHexDigit (c : Char) : Bool :=
  decide ((48 ≤ c.toNat ∧ c.toNat ≤ 57) ∨ (97 ≤ c.toNat ∧ c.toNat ≤ 102) ∨
    (65 ≤ c.toNat ∧ c.toNat ≤ 70))

/-- Consume exactly `n` hex digits (one `{n}` repetition of the regex). -/
def hexRun : Nat → List Char → Option (List Char)
  | 0, rest => some rest
  | _ + 1, [] => none
  | n + 1, c :: rest => if isHexDigit c then hexRun n rest else none

/-- Consume one literal `-` of the regex. -/
def expectDash : List Char → Option (List Char)
  | [] => none
  | c :: rest => if c = '-' then some rest else none

/-- `isValidGuid` (source lines 95-98): the anchored regex
`^[0-9a-f]{8}-[0-9a-f]{4}-[0-9a-f]{4}-[0-9a-f]{4}-[0-9a-f]{12}$` with flag
`i`, translated structurally; the trailing `== some []` is the `$` anchor. -/
def isValidGuid (s : List Char) : Bool :=
  (((((((((hexRun 8 s).bind expectDash).bind (hexRun 4)).bind
    expectDash).bind (hexRun 4)).bind expectDash).bind (hexRun 4)).bind
    expectDash).bind (hexRun 12)) == some []

/-- The source's global replace of `-` by the empty string. -/
def stripDashes (s : List Char) : List Char :=
  s.filter (fun c => c != '-')

/-- Numeric value of a hex digit char (case-insensitive), `none` on
a non-hex char. -/
def hexCharVal (c : Char) : Option Nat :=
  if 48 ≤ c.toNat ∧ c.toNat ≤ 57 then some (c.toNat - 48)
  else if 97 ≤ c.toNat ∧ c.toNat ≤ 102 then some (c.toNat - 87)
  else if 65 ≤ c.toNat ∧ c.toNat ≤ 70 then some (c.toNat - 55)
  else none

/-- Node `Buffer.from(str, 'hex')`: decodes two chars per byte and silently
truncates at the first invalid pair or odd tail (it never throws).  On the
only path where the source uses it the input has already been validated, so
the truncation branch is dead there. -/
def hexToBytesTrunc : List Char → List Nat
  | c1 :: c2 :: rest =>
    match hexCharVal c1, hexCharVal c2 with
    | some h, some l => (16 * h + l) :: hexToBytesTrunc rest
    | _, _ => []
  | _ => []

/-- `guidToBuffer` (source lines 103-110): validate, strip dashes, decode
hex. -/
def guidToBuffer (s : List Char) : Except GuidError (List Nat) :=
  if isValidGuid s then .ok (hexToBytesTrunc (stripDashes s))
  else .error .invalidFormat

/-! ### 32-bit coercions of the JS bitwise operators -/

/-- JS `ToUint32` on an integer value. -/
def toUint32 (t : Int) : Nat :=
  (t % 4294967296).toNat

/-- JS `ToInt32` on an integer value (two's-complement wrap). -/
def toInt32 (t : Int) : Int :=
  let m := t % 4294967296
  if m < 2147483648 then m else m - 4294967296

/-- `buffer.readUInt16BE(off)`. -/
def readUInt16BE (b : List Nat) (off : Nat) : Nat :=
  b.getD off 0 * 256 + b.getD (off + 1) 0

/-- `buffer.readUInt32BE(off)`. -/
def readUInt32BE (b : List Nat) (off : Nat) : Nat :=
  b.getD off 0 * 16777216 + b.getD (off + 1) 0 * 65536 +
    b.getD (off + 2) 0 * 256 + b.getD (off + 3) 0

/-- The two bytes written by `writeUInt16BE`. -/
def be16 (v : Nat) : List Nat :=
  [v / 256 % 256, v % 256]

/-- The four bytes written by `writeUInt32BE`. -/
def be32 (v : Nat) : List Nat :=
  [v / 16777216 % 256, v / 65536 % 256, v / 256 % 256, v % 256]

/-- The 48-bit big-endian integer formed by bytes 0-5 of a buffer (the tick
field of the identifier layout, spec §3). -/
def tick48 (b : List Nat) : Nat :=
  readUInt32BE b 0 * 65536 + readUInt16BE b 4

/-! ### Generator state and construction -/

/-- The mutable/configured fields of a `SequentialGuidGenerator` instance.
`epochMs` is `epoch.getTime()`; `lastTimestamp` and `sequence` start at 0. -/
structure GenState where
  machineId : List Nat
  epochMs : Int
  lastTimestamp : Int
  sequence : Nat
deriving DecidableEq, Repr

instance : DecidableEq (GenState × List Int × List Nat) := inferInstance

instance : DecidableEq (List (List Char) × GenState × List Int × List Nat) :=
  inferInstance

/-- `new Date('1900-01-01T00:00:00Z').getTime()`, the default epoch. -/
def epochDefaultMs : Int := -2208988800000

/-- The constructor (source lines 35-42).  `machineIdOpt = none` takes the
`generateMachineId()` branch, which fills a fresh 4-byte buffer with
`randomBytes(4)`, modelled by the first 4 bytes of the `randId` stream.
A supplied `Buffer` is always truthy in JS (even when empty), so any
supplied value is used as-is and then length-checked. -/
def mkGenerator (machineIdOpt : Option (List Nat)) (epochMsOpt : Option Int)
    (randId : List Nat) : Except GuidError GenState :=
  let mid := match machineIdOpt with
    | some m => m
    | none => randId.take 4
  let e := epochMsOpt.getD epochDefaultMs
  if mid.length ≠ 4 then .error .invalidMachineId
  else .ok ⟨mid, e, 0, 0⟩

/-- `getMachineId` (source lines 88-90): `toString('hex').toUpperCase()`. -/
def getMachineId (st : GenState) : List Char :=
  (bytesToHex st.machineId).map Char.toUpper

/-! ### Timestamp resolution (`getTimestamp`, source lines 127-147) -/

/-- `(now - this.epoch.getTime()) * TICKS_PER_MILLISECOND`; the source's
`Math.floor` is the identity because both operands are integers. -/
def tickOf (epochMs now : Int) : Int :=
  (now - epochMs) * 10000

/-- The busy-wait `while (Date.now() <= now) {}`: consume clock readings
until one exceeds `now` (that reading is consumed by the final loop test);
`none` when the stream runs out (the real loop would still be spinning). -/
def waitPast : List Int → Int → Option (List Int)
  | [], _ => none
  | c :: cs, now => if c ≤ now then waitPast cs now else some cs

/-- `getTimestamp(now)` (source lines 127-147).  Returns the resolved tick,
the updated instance state and the remaining clock stream.  On sequence
overflow the source busy-waits and recurses on a fresh `Date.now()`
reading; the recursion depth is bounded by `fuel`. -/
def getTimestamp : Nat → List Int → Int → GenState → Option (Int × GenState × List Int)
  | 0, _, _, _ => none
  | fuel + 1, clock, now, st =>
    let ticks := tickOf st.epochMs now
    if ticks = st.lastTimestamp then
      let seq := (st.sequence + 1) &&& 15
      if seq = 0 then
        match waitPast clock now with
        | none => none
        | some clock' =>
          match clock' with
          | [] => none
          | now' :: clock'' => getTimestamp fuel clock'' now' { st with sequence := 0 }
      else
        some (ticks, { st with sequence := seq, lastTimestamp := ticks }, clock)
    else
      some (ticks, { st with sequence := 0, lastTimestamp := ticks }, clock)

/-! ### Packing and generation (`generate`, source lines 47-68) -/

/-- The 16-byte buffer assembled by `generate` (source lines 50-64) from the
resolved tick, the current sequence, the machine id and the 6 fresh random
bytes:
`writeUInt32BE(timestamp >>> 16, 0)` — JS `>>>` first coerces to
`ToUint32`, so the written word is `toUint32 timestamp >>> 16`;
`writeUInt16BE(timestamp & 0xFFFF, 4)` — the low 16 bits of the same
32-bit coercion;
`writeUInt16BE((machineId.readUInt16BE(0) & 0xFFF0) | (sequence & 0x000F), 6)`;
`writeUInt16BE(machineId.readUInt16BE(2), 8)`; random bytes at 10-15. -/
def packGuid (timestamp : Int) (sequence : Nat) (machineId : List Nat)
    (rand6 : List Nat) : List Nat :=
  be32 (toUint32 timestamp >>> 16) ++
    be16 (toUint32 timestamp % 65536) ++
    be16 ((readUInt16BE machineId 0 &&& 65520) ||| (sequence &&& 15)) ++
    be16 (readUInt16BE machineId 2) ++
    rand6

/-- `generate()` (source lines 47-68): take `Date.now()`, resolve the tick,
pack the buffer with 6 random bytes, format.  Returns the guid text, the
updated state and the remaining clock/randomness streams. -/
def generate (fuel : Nat) (clock : List Int) (rand : List Nat) (st : GenState) :
    Option (List Char × GenState × List Int × List Nat) :=
  match clock with
  | [] => none
  | now :: clock₁ =>
    match getTimestamp fuel clock₁ now st with
    | none => none
    | some (timestamp, st', clock₂) =>
      match rand with
      | r0 :: r1 :: r2 :: r3 :: r4 :: r5 :: rand' =>
        some (formatGuid (packGuid timestamp st'.sequence st'.machineId
          [r0, r1, r2, r3, r4, r5]), st', clock₂, rand')
      | _ => none

/-- The loop body of `generateBatch` iterated `n` times. -/
def generateList : Nat → Nat → List Int → List Nat → GenState →
    Option (List (List Char) × GenState × List Int × List Nat)
  | _, 0, clock, rand, st => some ([], st, clock, rand)
  | fuel, n + 1, clock, rand, st =>
    match generate fuel clock rand st with
    | none => none
    | some (g, st', clock', rand') =>
      match generateList fuel n clock' rand' st' with
      | none => none
      | some (gs, st'', clock'', rand'') => some (g :: gs, st'', clock'', rand'')

/-- `generateBatch(count)` (source lines 73-83).  The outer `Option` is
model adequacy (fuel / stream exhaustion), the inner `Except` is the
program's own behavior. -/
def generateBatch (fuel : Nat) (count : Int) (clock : List Int) (rand : List Nat)
    (st : GenState) :
    Option (Except GuidError (List (List Char) × GenState × List Int × List Nat)) :=
  if count ≤ 0 then some (.error .invalidCount)
  else (generateList fuel count.toNat clock rand st).map .ok

/-! ### Timestamp extraction (`extractTimestamp`, source lines 115-125) -/

/-- `extractTimestamp(guid)` (source lines 115-125).  The JS expression
`(timestampHigh << 16) | timestampLow` coerces both operands to 32 bits:
because `timestampLow < 2^16` and the shifted pattern has zero low bits,
its value is exactly `toInt32 (timestampHigh * 65536 + timestampLow)`.
The result models `new Date(epoch.getTime() + timestamp / 10000)` by its
exact millisecond time value. -/
def extractTimestamp (epochMs : Int) (s : List Char) : Except GuidError ℚ :=
  match guidToBuffer s with
  | .error e => .error e
  | .ok buffer =>
    let timestampHigh := readUInt32BE buffer 0
    let timestampLow := readUInt16BE buffer 4
    let timestamp : Int := toInt32 (timestampHigh * 65536 + timestampLow)
    .ok ((epochMs : ℚ) + (timestamp : ℚ) / 10000)

/-! ### Spec-side notions used to state the claims -/

/-- The grammar of the spec (§3/§4.4): exactly 8, 4, 4, 4 and 12 hex digits
joined by hyphens in exactly those four positions, nothing else. -/
def GuidShape (s : List Char) : Prop :=
  ∃ p1 p2 p3 p4 p5 : List Char,
    s = p1 ++ '-' :: (p2 ++ '-' :: (p3 ++ '-' :: (p4 ++ '-' :: p5))) ∧
    p1.length = 8 ∧ p2.length = 4 ∧ p3.length = 4 ∧ p4.length = 4 ∧
    p5.length = 12 ∧
    (∀ c ∈ p1, isHexDigit c = true) ∧ (∀ c ∈ p2, isHexDigit c = true) ∧
    (∀ c ∈ p3, isHexDigit c = true) ∧ (∀ c ∈ p4, isHexDigit c = true) ∧
    (∀ c ∈ p5, isHexDigit c = true)

/-- Lexicographic `≤` on byte sequences (the spec's sortable-prefix order). -/
def lexLeBytes : List Nat → List Nat → Bool
  | [], _ => true
  | _ :: _, [] => false
  | a :: as, b :: bs =>
    if a < b then true else if b < a then false else lexLeBytes as bs

/-- The sortable part of a generation, as one natural number:
the (32-bit-wrapped) tick value actually packed, refined by the 4-bit
sequence.  Distinct keys force distinct identifiers. -/
def guidKey (t : Int) (s : Nat) : Nat :=
  toUint32 t * 16 + s

/-- `guidKey` recovered from the identifier text alone (same instance, so
the machine-id bits of byte 7 are fixed and the low nibble is the
sequence). -/
def keyOfGuid (g : List Char) : Nat :=
  let b := hexToBytesTrunc (stripDashes g)
  (readUInt32BE b 0 * 65536 + readUInt16BE b 4) * 16 + b.getD 7 0 % 16

/-- The nibble sequence of a byte list (high nibble of each byte first):
the hex digit values a correct decoding must have found. -/
def nibblesOf (l : List Nat) : List Nat :=
  l.flatMap (fun b => [b / 16, b % 16])

/-! ## Lemmas: hex digits and the codec -/

theorem hexVal_up_digit :
    ∀ n < 16, hexCharVal (Char.toUpper (hexDigitChar n)) = some n ∧
      isHexDigit (Char.toUpper (hexDigitChar n)) = true ∧
      (Char.toUpper (hexDigitChar n) != '-') = true := by
  decide

theorem bytesToHex_nil : bytesToHex [] = [] := rfl

theorem bytesToHex_cons (x : Nat) (l : List Nat) :
    bytesToHex (x :: l) = byteToHex x ++ bytesToHex l := by
  simp [bytesToHex]

theorem bytesToHex_append (l₁ l₂ : List Nat) :
    bytesToHex (l₁ ++ l₂) = bytesToHex l₁ ++ bytesToHex l₂ := by
  simp [bytesToHex]

theorem length_bytesToHex (l : List Nat) :
    (bytesToHex l).length = 2 * l.length := by
  induction l with
  | nil => rfl
  | cons x l ih => simp [bytesToHex_cons, byteToHex, ih]; ring

theorem mem_bytesToHex {c : Char} {l : List Nat} (hb : ∀ x ∈ l, x < 256)
    (hc : c ∈ bytesToHex l) : ∃ n, n < 16 ∧ c = hexDigitChar n := by
  induction l with
  | nil => simp [bytesToHex] at hc
  | cons x l ih =>
    rw [bytesToHex_cons] at hc
    rcases List.mem_append.1 hc with h | h
    · have hx : x < 256 := hb x (List.mem_cons_self x l)
      simp only [byteToHex, List.mem_cons, List.not_mem_nil, or_false] at h
      rcases h with h | h
      · exact ⟨x / 16, by omega, h⟩
      · exact ⟨x % 16, by omega, h⟩
    · exact ih (fun y hy => hb y (List.mem_cons_of_mem x hy)) h

theorem up_bytesToHex_hex {c : Char} {l : List Nat} (hb : ∀ x ∈ l, x < 256)
    (hc : c ∈ (bytesToHex l).map Char.toUpper) : isHexDigit c = true := by
  rcases List.mem_map.1 hc with ⟨d, hd, rfl⟩
  obtain ⟨n, hn, rfl⟩ := mem_bytesToHex hb hd
  exact (hexVal_up_digit n hn).2.1

theorem up_bytesToHex_ne_dash {c : Char} {l : List Nat} (hb : ∀ x ∈ l, x < 256)
    (hc : c ∈ (bytesToHex l).map Char.toUpper) : (c != '-') = true := by
  rcases List.mem_map.1 hc with ⟨d, hd, rfl⟩
  obtain ⟨n, hn, rfl⟩ := mem_bytesToHex hb hd
  exact (hexVal_up_digit n hn).2.2

theorem hexToBytesTrunc_byte {b : Nat} (hb : b < 256) (rest : List Char) :
    hexToBytesTrunc ((byteToHex b).map Char.toUpper ++ rest) =
      b :: hexToBytesTrunc rest := by
  have h1 : b / 16 < 16 := by omega
  have h2 : b % 16 < 16 := by omega
  simp only [byteToHex, List.map_cons, List.map_nil, List.cons_append,
    List.nil_append, hexToBytesTrunc, (hexVal_up_digit _ h1).1,
    (hexVal_up_digit _ h2).1]
  congr 1
  omega

theorem hexToBytesTrunc_bytes {l : List Nat} (hb : ∀ x ∈ l, x < 256)
    (rest : List Char) :
    hexToBytesTrunc ((bytesToHex l).map Char.toUpper ++ rest) =
      l ++ hexToBytesTrunc rest := by
  induction l with
  | nil => simp [bytesToHex]
  | cons x l ih =>
    rw [bytesToHex_cons, List.map_append, List.append_assoc,
      hexToBytesTrunc_byte (hb x (List.mem_cons_self x l)),
      ih (fun y hy => hb y (List.mem_cons_of_mem x hy))]
    rfl

theorem stripDashes_append (l₁ l₂ : List Char) :
    stripDashes (l₁ ++ l₂) = stripDashes l₁ ++ stripDashes l₂ := by
  simp [stripDashes]

theorem stripDashes_hex {l : List Nat} (hb : ∀ x ∈ l, x < 256) :
    stripDashes ((bytesToHex l).map Char.toUpper) =
      (bytesToHex l).map Char.toUpper := by
  exact List.filter_eq_self.2 (fun c hc => up_bytesToHex_ne_dash hb hc)

theorem stripDashes_dash_cons (l : List Char) :
    stripDashes ('-' :: l) = stripDashes l := by
  simp [stripDashes]

theorem hexRun_append {p : List Char} {n : Nat} (hl : p.length = n)
    (hh : ∀ c ∈ p, isHexDigit c = true) (rest : List Char) :
    hexRun n (p ++ rest) = some rest := by
  induction p generalizing n with
  | nil => simp at hl; subst hl; rfl
  | cons c p ih =>
    simp only [List.length_cons] at hl
    subst hl
    simp only [List.cons_append, hexRun, hh c (List.mem_cons_self c p),
      if_true]
    exact ih rfl (fun d hd => hh d (List.mem_cons_of_mem c hd))

theorem hexRun_some {n : Nat} :
    ∀ {s r : List Char}, hexRun n s = some r →
      ∃ p, s = p ++ r ∧ p.length = n ∧ ∀ c ∈ p, isHexDigit c = true := by
  induction n with
  | zero =>
    intro s r h
    simp only [hexRun, Option.some.injEq] at h
    exact ⟨[], by simp [h], rfl, by simp⟩
  | succ n ih =>
    intro s r h
    match s with
    | [] => simp [hexRun] at h
    | c :: s' =>
      simp only [hexRun] at h
      by_cases hc : isHexDigit c = true
      · rw [if_pos hc] at h
        obtain ⟨p, rfl, hl, hh⟩ := ih h
        refine ⟨c :: p, rfl, by simp [hl], ?_⟩
        intro d hd
        rcases List.mem_cons.1 hd with rfl | hd
        · exact hc
        · exact hh d hd
      · rw [if_neg hc] at h; exact absurd h (by simp)

theorem expectDash_some {s r : List Char} (h : expectDash s = some r) :
    s = '-' :: r := by
  match s with
  | [] => simp [expectDash] at h
  | c :: s' =>
    simp only [expectDash] at h
    split at h
    · next hc =>
      injection h with h
      rw [hc, h]
    · exact absurd h (by simp)

/-- The structural translation of the source regex accepts exactly the
spec's 8-4-4-4-12 hex grammar. -/
theorem isValidGuid_iff_shape (s : List Char) :
    isValidGuid s = true ↔ GuidShape s := by
  constructor
  · intro h
    have h0 := eq_of_beq h
    obtain ⟨a9, h9, hr5⟩ := Option.bind_eq_some.1 h0
    obtain ⟨a8, h8, hd4⟩ := Option.bind_eq_some.1 h9
    obtain ⟨a7, h7, hr4⟩ := Option.bind_eq_some.1 h8
    obtain ⟨a6, h6, hd3⟩ := Option.bind_eq_some.1 h7
    obtain ⟨a5, h5, hr3⟩ := Option.bind_eq_some.1 h6
    obtain ⟨a4, h4, hd2⟩ := Option.bind_eq_some.1 h5
    obtain ⟨a3, h3, hr2⟩ := Option.bind_eq_some.1 h4
    obtain ⟨a2, hr1, hd1⟩ := Option.bind_eq_some.1 h3
    obtain ⟨p1, rfl, hl1, hh1⟩ := hexRun_some hr1
    have e := expectDash_some hd1; subst e
    obtain ⟨p2, rfl, hl2, hh2⟩ := hexRun_some hr2
    have e := expectDash_some hd2; subst e
    obtain ⟨p3, rfl, hl3, hh3⟩ := hexRun_some hr3
    have e := expectDash_some hd3; subst e
    obtain ⟨p4, rfl, hl4, hh4⟩ := hexRun_some hr4
    have e := expectDash_some hd4; subst e
    obtain ⟨p5, rfl, hl5, hh5⟩ := hexRun_some hr5
    refine ⟨p1, p2, p3, p4, p5, by simp, hl1, hl2, hl3, hl4, ?_,
      hh1, hh2, hh3, hh4, fun c hc => hh5 c (by simp [hc])⟩
    simpa using hl5
  · rintro ⟨p1, p2, p3, p4, p5, rfl, hl1, hl2, hl3, hl4, hl5,
      hh1, hh2, hh3, hh4, hh5⟩
    have step : isValidGuid
        (p1 ++ '-' :: (p2 ++ '-' :: (p3 ++ '-' :: (p4 ++ '-' :: p5)))) =
        (hexRun 12 p5 == some []) := by
      simp [isValidGuid, hexRun_append hl1 hh1, hexRun_append hl2 hh2,
        hexRun_append hl3 hh3, hexRun_append hl4 hh4, expectDash]
    rw [step, show p5 = p5 ++ [] by simp, hexRun_append hl5 hh5]
    simp

/-- Recombining the five slices formatted by `formatGuid` gives back the
whole 16-byte buffer. -/
theorem slices_recombine {b : List Nat} (hl : b.length = 16) :
    b.take 4 ++ (b.drop 4).take 2 ++ (b.drop 6).take 2 ++
      (b.drop 8).take 2 ++ (b.drop 10).take 6 = b := by
  have s1 : b.take 6 = b.take 4 ++ (b.drop 4).take 2 := List.take_add b 4 2
  have s2 : b.take 8 = b.take 6 ++ (b.drop 6).take 2 := List.take_add b 6 2
  have s3 : b.take 10 = b.take 8 ++ (b.drop 8).take 2 := List.take_add b 8 2
  have s4 : b.take 16 = b.take 10 ++ (b.drop 10).take 6 := List.take_add b 10 6
  rw [← s1, ← s2, ← s3, ← s4, ← hl, List.take_length]

theorem formatGuid_shape {b : List Nat} (hl : b.length = 16)
    (hb : ∀ x ∈ b, x < 256) : GuidShape (formatGuid b) := by
  have bt : ∀ l : List Nat, l ⊆ b → ∀ x ∈ l, x < 256 :=
    fun l hsub x hx => hb x (hsub hx)
  refine ⟨(bytesToHex (b.take 4)).map Char.toUpper,
    (bytesToHex ((b.drop 4).take 2)).map Char.toUpper,
    (bytesToHex ((b.drop 6).take 2)).map Char.toUpper,
    (bytesToHex ((b.drop 8).take 2)).map Char.toUpper,
    (bytesToHex ((b.drop 10).take 6)).map Char.toUpper,
    by rw [formatGuid]; simp [List.append_assoc], ?_, ?_, ?_, ?_, ?_, ?_,
      ?_, ?_, ?_, ?_⟩
  · simp only [List.length_map, length_bytesToHex, List.length_take, hl]
    decide
  · simp only [List.length_map, length_bytesToHex, List.length_take,
      List.length_drop, hl]
    decide
  · simp only [List.length_map, length_bytesToHex, List.length_take,
      List.length_drop, hl]
    decide
  · simp only [List.length_map, length_bytesToHex, List.length_take,
      List.length_drop, hl]
    decide
  · simp only [List.length_map, length_bytesToHex, List.length_take,
      List.length_drop, hl]
    decide
  · exact fun c hc => up_bytesToHex_hex (bt _ (List.take_subset 4 b)) hc
  · exact fun c hc => up_bytesToHex_hex
      (bt _ (((b.drop 4).take_subset 2).trans (List.drop_subset 4 b))) hc
  · exact fun c hc => up_bytesToHex_hex
      (bt _ (((b.drop 6).take_subset 2).trans (List.drop_subset 6 b))) hc
  · exact fun c hc => up_bytesToHex_hex
      (bt _ (((b.drop 8).take_subset 2).trans (List.drop_subset 8 b))) hc
  · exact fun c hc => up_bytesToHex_hex
      (bt _ (((b.drop 10).take_subset 6).trans (List.drop_subset 10 b))) hc

theorem isValidGuid_formatGuid {b : List Nat} (hl : b.length = 16)
    (hb : ∀ x ∈ b, x < 256) : isValidGuid (formatGuid b) = true :=
  (isValidGuid_iff_shape _).2 (formatGuid_shape hl hb)

theorem stripDashes_formatGuid {b : List Nat} (hl : b.length = 16)
    (hb : ∀ x ∈ b, x < 256) :
    stripDashes (formatGuid b) = (bytesToHex b).map Char.toUpper := by
  have bt : ∀ l : List Nat, l ⊆ b → ∀ x ∈ l, x < 256 :=
    fun l hsub x hx => hb x (hsub hx)
  rw [formatGuid, stripDashes_append, stripDashes_dash_cons,
    stripDashes_append, stripDashes_dash_cons, stripDashes_append,
    stripDashes_dash_cons, stripDashes_append, stripDashes_dash_cons,
    stripDashes_hex (bt _ (List.take_subset 4 b)),
    stripDashes_hex (bt _ (((b.drop 4).take_subset 2).trans (List.drop_subset 4 b))),
    stripDashes_hex (bt _ (((b.drop 6).take_subset 2).trans (List.drop_subset 6 b))),
    stripDashes_hex (bt _ (((b.drop 8).take_subset 2).trans (List.drop_subset 8 b))),
    stripDashes_hex (bt _ (((b.drop 10).take_subset 6).trans (List.drop_subset 10 b))),
    ← List.map_append, ← List.map_append, ← List.map_append,
    ← List.map_append, ← bytesToHex_append, ← bytesToHex_append,
    ← bytesToHex_append, ← bytesToHex_append, slices_recombine hl]

/-- The format → parse round trip on any 16-byte buffer. -/
theorem guidToBuffer_formatGuid {b : List Nat} (hl : b.length = 16)
    (hb : ∀ x ∈ b, x < 256) :
    guidToBuffer (formatGuid b) = .ok b := by
  rw [guidToBuffer, if_pos (isValidGuid_formatGuid hl hb),
    stripDashes_formatGuid hl hb]
  have := hexToBytesTrunc_bytes hb ([] : List Char)
  rw [List.append_nil] at this
  rw [this]
  simp [hexToBytesTrunc]

theorem hexVal_of_isHexDigit {c : Char} (h : isHexDigit c = true) :
    ∃ v, hexCharVal c = some v ∧ v < 16 := by
  have h' := of_decide_eq_true h
  unfold hexCharVal
  rcases h' with h1 | h2 | h3
  · rw [if_pos h1]
    exact ⟨_, rfl, by omega⟩
  · rw [if_neg (by omega), if_pos h2]
    exact ⟨_, rfl, by omega⟩
  · rw [if_neg (by omega), if_neg (by omega), if_pos h3]
    exact ⟨_, rfl, by omega⟩

theorem hexDigit_ne_dash {c : Char} (h : isHexDigit c = true) :
    (c != '-') = true := by
  have h' := of_decide_eq_true h
  refine bne_iff_ne.2 (fun hc => ?_)
  subst hc
  revert h'
  decide

theorem nibblesOf_cons (b : Nat) (l : List Nat) :
    nibblesOf (b :: l) = b / 16 :: b % 16 :: nibblesOf l := by
  simp [nibblesOf]

/-- Decoding an even-length all-hex string: the byte count halves the char
count, every byte is in range, and the bytes' nibbles are exactly the hex
values of the characters (so the result is the hex decoding). -/
theorem hexToBytesTrunc_spec :
    ∀ (k : Nat) (cs : List Char), cs.length = 2 * k →
      (∀ c ∈ cs, isHexDigit c = true) →
      (hexToBytesTrunc cs).length = k ∧
      (∀ x ∈ hexToBytesTrunc cs, x < 256) ∧
      cs.mapM hexCharVal = some (nibblesOf (hexToBytesTrunc cs)) := by
  intro k
  induction k with
  | zero =>
    intro cs hl _
    have : cs = [] := List.eq_nil_of_length_eq_zero (by omega)
    subst this
    exact ⟨rfl, by simp [hexToBytesTrunc], rfl⟩
  | succ k ih =>
    intro cs hl hh
    match cs with
    | [] => simp at hl
    | [c] => simp at hl; omega
    | c1 :: c2 :: rest =>
      obtain ⟨v1, hv1, hb1⟩ := hexVal_of_isHexDigit (hh c1 (by simp))
      obtain ⟨v2, hv2, hb2⟩ := hexVal_of_isHexDigit (hh c2 (by simp))
      have hlr : rest.length = 2 * k := by
        simp only [List.length_cons] at hl
        omega
      obtain ⟨ihl, ihb, ihm⟩ := ih rest hlr (fun c hc => hh c (by simp [hc]))
      refine ⟨?_, ?_, ?_⟩
      · simp [hexToBytesTrunc, hv1, hv2, ihl]
      · intro x hx
        simp only [hexToBytesTrunc, hv1, hv2, List.mem_cons] at hx
        rcases hx with rfl | hx
        · omega
        · exact ihb x hx
      · simp only [hexToBytesTrunc, hv1, hv2, List.mapM_cons, ihm,
          Option.bind_eq_bind, Option.some_bind, nibblesOf_cons]
        have e1 : (16 * v1 + v2) / 16 = v1 := by omega
        have e2 : (16 * v1 + v2) % 16 = v2 := by omega
        rw [e1, e2]
        rfl

/-- A valid identifier text strips to exactly 32 hex characters. -/
theorem shape_strip {s : List Char} (h : GuidShape s) :
    (stripDashes s).length = 32 ∧
    (∀ c ∈ stripDashes s, isHexDigit c = true) := by
  obtain ⟨p1, p2, p3, p4, p5, rfl, hl1, hl2, hl3, hl4, hl5,
    hh1, hh2, hh3, hh4, hh5⟩ := h
  have strip_of : ∀ p : List Char, (∀ c ∈ p, isHexDigit c = true) →
      stripDashes p = p :=
    fun p hp => List.filter_eq_self.2 (fun c hc => hexDigit_ne_dash (hp c hc))
  have e : stripDashes (p1 ++ '-' :: (p2 ++ '-' :: (p3 ++ '-' ::
      (p4 ++ '-' :: p5)))) = p1 ++ (p2 ++ (p3 ++ (p4 ++ p5))) := by
    rw [stripDashes_append, stripDashes_dash_cons, stripDashes_append,
      stripDashes_dash_cons, stripDashes_append, stripDashes_dash_cons,
      stripDashes_append, stripDashes_dash_cons, strip_of p1 hh1,
      strip_of p2 hh2, strip_of p3 hh3, strip_of p4 hh4, strip_of p5 hh5]
  rw [e]
  constructor
  · simp [hl1, hl2, hl3, hl4, hl5]
  · intro c hc
    simp only [List.mem_append] at hc
    rcases hc with hc | hc | hc | hc | hc <;>
      [exact hh1 c hc; exact hh2 c hc; exact hh3 c hc; exact hh4 c hc;
       exact hh5 c hc]

/-- On a valid text, `guidToBuffer` succeeds with exactly the 16 bytes whose
nibbles are the hex values of the stripped text. -/
theorem guidToBuffer_valid {s : List Char} (hv : isValidGuid s = true) :
    ∃ l, guidToBuffer s = .ok l ∧ l.length = 16 ∧ (∀ x ∈ l, x < 256) ∧
      (stripDashes s).mapM hexCharVal = some (nibblesOf l) := by
  obtain ⟨hl, hh⟩ := shape_strip ((isValidGuid_iff_shape s).1 hv)
  obtain ⟨h1, h2, h3⟩ := hexToBytesTrunc_spec 16 (stripDashes s) (by omega) hh
  exact ⟨hexToBytesTrunc (stripDashes s), by rw [guidToBuffer, if_pos hv],
    h1, h2, h3⟩

/-! ## Lemmas: timestamp resolution and generation dynamics

`clock.Pairwise (· ≤ ·)` states that the clock stream is non-decreasing. -/

theorem waitPast_spec {clock : List Int} {now : Int} {clock' : List Int}
    (hp : clock.Pairwise (· ≤ ·)) (h : waitPast clock now = some clock') :
    clock' <:+ clock ∧ ∀ x ∈ clock', now < x := by
  induction clock generalizing clock' with
  | nil => simp [waitPast] at h
  | cons c cs ih =>
    obtain ⟨hhead, htail⟩ := List.pairwise_cons.1 hp
    unfold waitPast at h
    by_cases hc : c ≤ now
    · rw [if_pos hc] at h
      obtain ⟨hsuf, hgt⟩ := ih htail h
      exact ⟨hsuf.trans (List.suffix_cons c cs), hgt⟩
    · rw [if_neg hc] at h
      injection h with h
      subst h
      exact ⟨List.suffix_cons c cs,
        fun x hx => lt_of_lt_of_le (not_le.1 hc) (hhead x hx)⟩

theorem tickOf_strictMono {e a b : Int} (h : a < b) :
    tickOf e a < tickOf e b := by
  unfold tickOf
  omega

/-- Everything `getTimestamp` guarantees on success, under a non-decreasing
clock and the sequence invariant: the updated state stores the returned
tick, the sequence stays in `[0,15]`, a same-tick resolution increments the
sequence, a new tick resets it to 0, and the returned tick is the tick of
some consumed reading `w` that bounds every remaining reading below. -/
theorem getTimestamp_spec :
    ∀ (fuel : Nat) (clock : List Int) (now : Int) (st : GenState)
      (t : Int) (st' : GenState) (clock' : List Int),
      (now :: clock).Pairwise (· ≤ ·) →
      st.sequence ≤ 15 →
      getTimestamp fuel clock now st = some (t, st', clock') →
      st'.machineId = st.machineId ∧ st'.epochMs = st.epochMs ∧
      st'.lastTimestamp = t ∧ st'.sequence ≤ 15 ∧
      (t = st.lastTimestamp → st'.sequence = st.sequence + 1) ∧
      (t ≠ st.lastTimestamp → st'.sequence = 0) ∧
      ∃ w, (w = now ∨ w ∈ clock) ∧ t = tickOf st.epochMs w ∧ now ≤ w ∧
        clock' <:+ clock ∧ (∀ x ∈ clock', w ≤ x) := by
  intro fuel
  induction fuel with
  | zero => intro clock now st t st' clock' _ _ h; simp [getTimestamp] at h
  | succ fuel ih =>
    intro clock now st t st' clock' hp hseq h
    obtain ⟨hhead, htail⟩ := List.pairwise_cons.1 hp
    simp only [getTimestamp] at h
    by_cases htick : tickOf st.epochMs now = st.lastTimestamp
    · rw [if_pos htick] at h
      by_cases hwrap : (st.sequence + 1) &&& 15 = 0
      · rw [if_pos hwrap] at h
        match hw : waitPast clock now with
        | none => rw [hw] at h; exact absurd h (by simp)
        | some clock₁ =>
          rw [hw] at h
          obtain ⟨hsuf₁, hgt₁⟩ := waitPast_spec htail hw
          match clock₁ with
          | [] => exact absurd h (by simp)
          | now' :: clock₂ =>
            have hp₁ : (now' :: clock₂).Pairwise (· ≤ ·) :=
              htail.sublist hsuf₁.sublist
            have hrec := ih clock₂ now' { st with sequence := 0 } t st'
              clock' hp₁ (by simp) h
            obtain ⟨hm, he, hl, hs, -, hneq, w, hw', ht, hnow, hsuf, hbnd⟩ :=
              hrec
            have hnow' : now < now' := hgt₁ now' (by simp)
            have htlt : st.lastTimestamp < t := by
              rw [← htick, ht]
              exact lt_of_lt_of_le (tickOf_strictMono hnow')
                (by
                  rcases lt_or_eq_of_le hnow with hlt | heq
                  · exact le_of_lt (tickOf_strictMono hlt)
                  · rw [heq])
            refine ⟨hm, he, hl, hs, fun hcontra => absurd hcontra htlt.ne',
              fun _ => hneq (by simp; omega), w, ?_, ht,
              le_of_lt (lt_of_lt_of_le hnow' hnow), ?_, hbnd⟩
            · right
              rcases hw' with rfl | hw'
              · exact hsuf₁.subset (by simp)
              · exact hsuf₁.subset (by simp [hw'])
            · exact hsuf.trans ((List.suffix_cons now' clock₂).trans hsuf₁)
      · rw [if_neg hwrap] at h
        simp only [Option.some.injEq, Prod.mk.injEq] at h
        obtain ⟨h1, h2, h3⟩ := h
        subst h1
        subst h2
        subst h3
        have hseq' : st.sequence + 1 ≤ 15 := by
          rcases Nat.lt_or_ge st.sequence 15 with hlt | hge
          · omega
          · exfalso
            have : st.sequence = 15 := by omega
            rw [this] at hwrap
            exact hwrap (by decide)
        have hand : (st.sequence + 1) &&& 15 = st.sequence + 1 := by
          have h15 : (15:Nat) = 2 ^ 4 - 1 := by norm_num
          rw [h15, Nat.and_pow_two_sub_one_eq_mod]
          omega
        exact ⟨rfl, rfl, rfl, by simp [hand]; omega, fun _ => by simp [hand],
          fun hne => absurd htick hne, now, Or.inl rfl, rfl, le_refl now,
          List.suffix_refl _, hhead⟩
    · rw [if_neg htick] at h
      simp only [Option.some.injEq, Prod.mk.injEq] at h
      obtain ⟨h1, h2, h3⟩ := h
      subst h1
      subst h2
      subst h3
      exact ⟨rfl, rfl, rfl, by simp, fun heq => absurd heq htick,
        fun _ => rfl, now, Or.inl rfl, rfl, le_refl now,
        List.suffix_refl _, hhead⟩

/-- `generate` on success: the emitted text is the formatted packing of the
resolved tick with the post-call sequence, the state advances as in
`getTimestamp_spec`, six random bytes are consumed, and the resolved tick
is the tick of a consumed clock reading `w` bounding the rest of the
stream. -/
theorem generate_spec {fuel : Nat} {clock : List Int} {rand : List Nat}
    {st : GenState} {g : List Char} {st' : GenState} {clock' : List Int}
    {rand' : List Nat}
    (hp : clock.Pairwise (· ≤ ·)) (hseq : st.sequence ≤ 15)
    (h : generate fuel clock rand st = some (g, st', clock', rand')) :
    ∃ t w,
      g = formatGuid (packGuid t st'.sequence st.machineId (rand.take 6)) ∧
      6 ≤ rand.length ∧ rand' = rand.drop 6 ∧
      st'.machineId = st.machineId ∧ st'.epochMs = st.epochMs ∧
      st'.lastTimestamp = t ∧ st'.sequence ≤ 15 ∧
      (t = st.lastTimestamp → st'.sequence = st.sequence + 1) ∧
      (t ≠ st.lastTimestamp → st'.sequence = 0) ∧
      w ∈ clock ∧ t = tickOf st.epochMs w ∧ clock' <:+ clock ∧
      (∀ x ∈ clock', w ≤ x) := by
  match clock with
  | [] => simp [generate] at h
  | now :: clock₁ =>
    simp only [generate] at h
    match hts : getTimestamp fuel clock₁ now st with
    | none => rw [hts] at h; exact absurd h (by simp)
    | some (t, st₁, clock₂) =>
      rw [hts] at h
      obtain ⟨hm, he, hl, hs, hsame, hdiff, w, hww, ht, hnw, hsuf, hbnd⟩ :=
        getTimestamp_spec fuel clock₁ now st t st₁ clock₂ hp hseq hts
      match rand with
      | r0 :: r1 :: r2 :: r3 :: r4 :: r5 :: randRest =>
        simp only [Option.some.injEq, Prod.mk.injEq] at h
        obtain ⟨hg, hst, hck, hrd⟩ := h
        subst hst
        subst hck
        subst hrd
        refine ⟨t, w, ?_, by simp, rfl, hm, he, hl, hs, hsame, hdiff, ?_,
          ht, hsuf.trans (List.suffix_cons now clock₁), hbnd⟩
        · rw [← hg, hm]
          rfl
        · rcases hww with rfl | hww
          · exact List.mem_cons_self _ _
          · exact List.mem_cons_of_mem _ hww
      | [] => exact absurd h (by simp)
      | [r0] => exact absurd h (by simp)
      | [r0, r1] => exact absurd h (by simp)
      | [r0, r1, r2] => exact absurd h (by simp)
      | [r0, r1, r2, r3] => exact absurd h (by simp)
      | [r0, r1, r2, r3, r4] => exact absurd h (by simp)

/-- Every byte of a packed buffer is below 256 (the random bytes by
hypothesis, the rest by construction). -/
theorem packGuid_bytes {t : Int} {s : Nat} {mach r6 : List Nat}
    (hrb : ∀ x ∈ r6, x < 256) :
    ∀ x ∈ packGuid t s mach r6, x < 256 := by
  intro x hx
  simp only [packGuid, be32, be16, List.append_assoc, List.cons_append,
    List.nil_append, List.mem_cons, List.mem_append] at hx
  rcases hx with rfl | rfl | rfl | rfl | rfl | rfl | rfl | rfl | rfl |
    rfl | hx
  · omega
  · omega
  · omega
  · omega
  · omega
  · omega
  · omega
  · omega
  · omega
  · omega
  · exact hrb x hx

theorem packGuid_length {t : Int} {s : Nat} {mach r6 : List Nat}
    (hr : r6.length = 6) : (packGuid t s mach r6).length = 16 := by
  simp [packGuid, be32, be16, hr]

theorem lor_mod_sixteen (x y : Nat) : (x ||| y) % 16 = x % 16 ||| y % 16 := by
  have h : (16:Nat) = 2 ^ 4 := by norm_num
  rw [h]
  apply Nat.eq_of_testBit_eq
  intro i
  simp only [Nat.testBit_mod_two_pow, Nat.testBit_lor, Bool.and_or_distrib_left]

theorem and_mask_mod_sixteen (x : Nat) : (x &&& 65520) % 16 = 0 := by
  have h : (16:Nat) = 2 ^ 4 := by norm_num
  rw [h]
  apply Nat.eq_of_testBit_eq
  intro i
  simp only [Nat.testBit_mod_two_pow, Nat.testBit_land, Nat.zero_testBit]
  by_cases hi : i < 4
  · interval_cases i <;> simp [Nat.testBit]
  · simp [hi]

theorem and_fifteen_of_le {s : Nat} (hs : s ≤ 15) : s &&& 15 = s := by
  have h15 : (15:Nat) = 2 ^ 4 - 1 := by norm_num
  rw [h15, Nat.and_pow_two_sub_one_eq_mod]
  omega

/-- Parsing the formatted text of a 16-byte buffer recovers the buffer. -/
theorem hexToBytes_strip_format {b : List Nat} (hl : b.length = 16)
    (hb : ∀ x ∈ b, x < 256) :
    hexToBytesTrunc (stripDashes (formatGuid b)) = b := by
  rw [stripDashes_formatGuid hl hb]
  have h := hexToBytesTrunc_bytes hb ([] : List Char)
  rw [List.append_nil] at h
  rw [h]
  simp [hexToBytesTrunc]

theorem toUint32_lt (t : Int) : toUint32 t < 4294967296 := by
  unfold toUint32
  omega

theorem readUInt32BE_cons (b0 b1 b2 b3 : Nat) (rest : List Nat) :
    readUInt32BE (b0 :: b1 :: b2 :: b3 :: rest) 0 =
      b0 * 16777216 + b1 * 65536 + b2 * 256 + b3 := rfl

theorem readUInt16BE_at4 (b0 b1 b2 b3 b4 b5 : Nat) (rest : List Nat) :
    readUInt16BE (b0 :: b1 :: b2 :: b3 :: b4 :: b5 :: rest) 4 =
      b4 * 256 + b5 := rfl

theorem getD_at7 (b0 b1 b2 b3 b4 b5 b6 b7 : Nat) (rest : List Nat) :
    (b0 :: b1 :: b2 :: b3 :: b4 :: b5 :: b6 :: b7 :: rest).getD 7 0 =
      b7 := rfl

/-- The sortable key can be read back off the emitted text: the wrapped
tick from bytes 0-5 and the sequence from the low nibble of byte 7. -/
theorem keyOfGuid_pack {t : Int} {s : Nat} {mach r6 : List Nat}
    (hs : s ≤ 15) (hr : r6.length = 6) (hrb : ∀ x ∈ r6, x < 256) :
    keyOfGuid (formatGuid (packGuid t s mach r6)) = guidKey t s := by
  have hb := @packGuid_bytes t s mach r6 hrb
  have hl := @packGuid_length t s mach r6 hr
  unfold keyOfGuid
  rw [hexToBytes_strip_format hl hb]
  have hu := toUint32_lt t
  have hshift : toUint32 t >>> 16 = toUint32 t / 65536 :=
    Nat.shiftRight_eq_div_pow (toUint32 t) 16
  have hv : ((readUInt16BE mach 0 &&& 65520) ||| (s &&& 15)) % 256 % 16 = s := by
    rw [Nat.mod_mod_of_dvd _ (by norm_num), lor_mod_sixteen,
      and_mask_mod_sixteen, and_fifteen_of_le hs, Nat.zero_or]
    omega
  simp only [packGuid, be32, be16, List.cons_append, List.nil_append]
  rw [readUInt32BE_cons, readUInt16BE_at4, getD_at7, hshift, hv]
  unfold guidKey
  have h1 : toUint32 t / 65536 < 65536 := by omega
  have e0 : toUint32 t / 65536 / 16777216 % 256 = 0 := by omega
  have e1 : toUint32 t / 65536 / 65536 % 256 = 0 := by omega
  omega

/-- The batch loop under a non-decreasing clock whose ticks stay inside one
2^32-tick window: every emitted identifier is valid, the batch has the
requested length, and the sortable keys strictly increase (starting from
the key of the state the loop entered with, provided that state's cursor is
anchored at a tick `w0` at or before every clock reading). -/
theorem generateList_spec :
    ∀ (n fuel : Nat) (clock : List Int) (rand : List Nat) (st : GenState)
      (gs : List (List Char)) (st' : GenState) (clock' : List Int)
      (rand' : List Nat),
      clock.Pairwise (· ≤ ·) →
      (∀ x ∈ clock, 0 ≤ tickOf st.epochMs x ∧
        tickOf st.epochMs x < 4294967296) →
      (∀ x ∈ rand, x < 256) →
      st.sequence ≤ 15 →
      0 ≤ st.lastTimestamp → st.lastTimestamp < 4294967296 →
      (∃ w0, st.lastTimestamp = tickOf st.epochMs w0 ∧
        ∀ x ∈ clock, w0 ≤ x) →
      generateList fuel n clock rand st = some (gs, st', clock', rand') →
      gs.length = n ∧ (∀ g ∈ gs, isValidGuid g = true) ∧
      List.Chain' (· < ·)
        (guidKey st.lastTimestamp st.sequence :: gs.map keyOfGuid) := by
  intro n
  induction n with
  | zero =>
    intro fuel clock rand st gs st' clock' rand' _ _ _ _ _ _ _ h
    simp only [generateList, Option.some.injEq, Prod.mk.injEq] at h
    obtain ⟨rfl, -, -, -⟩ := h
    exact ⟨rfl, by simp, List.chain'_singleton _⟩
  | succ n ih =>
    intro fuel clock rand st gs st' clock' rand' hp hwin hrb hseq hl0 hl1
      hanch h
    match hg : generate fuel clock rand st with
    | none =>
      simp only [generateList, hg] at h
      exact absurd h (by simp)
    | some (g, st₁, clock₁, rand₁) =>
      simp only [generateList, hg] at h
      match hgl : generateList fuel n clock₁ rand₁ st₁ with
      | none =>
        simp only [hgl] at h
        exact absurd h (by simp)
      | some (gs₂, st₂, clock₂, rand₂) =>
        simp only [hgl, Option.some.injEq, Prod.mk.injEq] at h
        obtain ⟨rfl, -, -, -⟩ := h
        obtain ⟨t, w, hgfmt, hr6, hrand₁, hm, he, hl, hs, hsame, hdiff,
          hwmem, ht, hsuf, hbnd⟩ := generate_spec hp hseq hg
        have htake6 : (rand.take 6).length = 6 := by
          rw [List.length_take]
          omega
        have htakeb : ∀ x ∈ rand.take 6, x < 256 :=
          fun x hx => hrb x (List.take_subset 6 rand hx)
        have hkeyg : keyOfGuid g = guidKey t st₁.sequence := by
          rw [hgfmt]
          exact keyOfGuid_pack hs htake6 htakeb
        obtain ⟨hwt0, hwt1⟩ := hwin w hwmem
        have hwin₁ : ∀ x ∈ clock₁, 0 ≤ tickOf st₁.epochMs x ∧
            tickOf st₁.epochMs x < 4294967296 := by
          intro x hx
          rw [he]
          exact hwin x (hsuf.subset hx)
        have hrb₁ : ∀ x ∈ rand₁, x < 256 := by
          intro x hx
          rw [hrand₁] at hx
          exact hrb x (List.drop_subset 6 rand hx)
        have hrec := ih fuel clock₁ rand₁ st₁ gs₂ st₂ clock₂ rand₂
          (hp.sublist hsuf.sublist) hwin₁ hrb₁
          hs (by rw [hl, ht]; exact hwt0) (by rw [hl, ht]; exact hwt1)
          ⟨w, by rw [hl, ht, he], fun x hx => hbnd x hx⟩ hgl
        obtain ⟨hlen₂, hval₂, hchain₂⟩ := hrec
        refine ⟨by simp [hlen₂], ?_, ?_⟩
        · intro g' hg'
          rcases List.mem_cons.1 hg' with rfl | hg'
          · rw [hgfmt]
            exact isValidGuid_formatGuid (packGuid_length htake6)
              (packGuid_bytes htakeb)
          · exact hval₂ g' hg'
        · rw [List.map_cons]
          refine List.chain'_cons.2 ⟨?_, by rw [hkeyg, ← hl]; exact hchain₂⟩
          rw [hkeyg]
          rcases eq_or_ne t st.lastTimestamp with heq | hne
          · have hseq₁ := hsame heq
            rw [heq, hseq₁]
            unfold guidKey
            omega
          · have hseq₁ := hdiff hne
            obtain ⟨w0, hw0, hw0b⟩ := hanch
            have hw0w : w0 ≤ w := hw0b w hwmem
            have hlt : st.lastTimestamp < t := by
              rcases lt_or_eq_of_le hw0w with hlt | heqw
              · rw [hw0, ht]
                exact tickOf_strictMono hlt
              · exfalso
                exact hne (by rw [ht, ← heqw, ← hw0])
            rw [hseq₁]
            unfold guidKey toUint32
            omega

theorem and_fifteen_eq_mod (x : Nat) : x &&& 15 = x % 16 := by
  have h15 : (15:Nat) = 2 ^ 4 - 1 := by norm_num
  rw [h15, Nat.and_pow_two_sub_one_eq_mod]

/-- The sequence stored after any successful `getTimestamp` is in `[0,15]`,
with no assumption on the state it started from. -/
theorem getTimestamp_seq_le :
    ∀ (fuel : Nat) (clock : List Int) (now : Int) (st : GenState)
      (t : Int) (st' : GenState) (clock' : List Int),
      getTimestamp fuel clock now st = some (t, st', clock') →
      st'.sequence ≤ 15 := by
  intro fuel
  induction fuel with
  | zero => intro clock now st t st' clock' h; simp [getTimestamp] at h
  | succ fuel ih =>
    intro clock now st t st' clock' h
    simp only [getTimestamp] at h
    by_cases htick : tickOf st.epochMs now = st.lastTimestamp
    · rw [if_pos htick] at h
      by_cases hwrap : (st.sequence + 1) &&& 15 = 0
      · rw [if_pos hwrap] at h
        match hw : waitPast clock now with
        | none => rw [hw] at h; exact absurd h (by simp)
        | some clock₁ =>
          rw [hw] at h
          match clock₁ with
          | [] => exact absurd h (by simp)
          | now' :: clock₂ => exact ih clock₂ now' _ t st' clock' h
      · rw [if_neg hwrap] at h
        simp only [Option.some.injEq, Prod.mk.injEq] at h
        obtain ⟨-, h2, -⟩ := h
        rw [← h2]
        simp only [and_fifteen_eq_mod]
        omega
    · rw [if_neg htick] at h
      simp only [Option.some.injEq, Prod.mk.injEq] at h
      obtain ⟨-, h2, -⟩ := h
      rw [← h2]
      exact Nat.zero_le 15

/-! ## The claims -/

/-- C2.  For any 16-byte buffer, `guidToBuffer (formatGuid b)` recovers `b`
bitwise, and `formatGuid` is idempotent under re-parsing:
re-formatting the parse of the formatted text gives the same text. -/
theorem claim2_roundtrip :
    ∀ b : List Nat, b.length = 16 → (∀ x ∈ b, x < 256) →
      guidToBuffer (formatGuid b) = .ok b ∧
      (guidToBuffer (formatGuid b)).map formatGuid = .ok (formatGuid b) := by
  intro b hl hb
  refine ⟨guidToBuffer_formatGuid hl hb, ?_⟩
  rw [guidToBuffer_formatGuid hl hb]
  rfl

/-- C2 witness: the round trip at the spec's known-answer buffer. -/
theorem claim2_roundtrip_witness :
    guidToBuffer (formatGuid
      [85, 14, 132, 0, 226, 155, 65, 212, 167, 22, 68, 102, 85, 68, 0, 0]) =
      .ok [85, 14, 132, 0, 226, 155, 65, 212, 167, 22, 68, 102, 85, 68, 0, 0] ∧
    (guidToBuffer (formatGuid
      [85, 14, 132, 0, 226, 155, 65, 212, 167, 22, 68, 102, 85, 68, 0, 0])).map
      formatGuid = .ok (formatGuid
      [85, 14, 132, 0, 226, 155, 65, 212, 167, 22, 68, 102, 85, 68, 0, 0]) :=
  claim2_roundtrip
    [85, 14, 132, 0, 226, 155, 65, 212, 167, 22, 68, 102, 85, 68, 0, 0]
    (by decide) (by decide)

/-- C6.  `isValidGuid` is a total Boolean function (it can signal nothing
but its result), and it accepts a string exactly when the string consists
of 8, 4, 4, 4 and 12 case-insensitive hex digits joined by hyphens in
exactly those four positions — nothing more, nothing less. -/
theorem claim6_isValid_characterization :
    ∀ s : List Char, isValidGuid s = true ↔ GuidShape s :=
  isValidGuid_iff_shape

/-- C7.  `guidToBuffer` and `extractTimestamp` fail with the
invalid-format error exactly when `isValidGuid` is false; on a valid text
neither fails, and `guidToBuffer` returns the 16 bytes (each below 256)
obtained by stripping hyphens and decoding the text as hex — the bytes'
nibbles are precisely the hex values of the stripped characters. -/
theorem claim7_error_behavior :
    ∀ (epochMs : Int) (s : List Char),
      (guidToBuffer s = .error .invalidFormat ↔ isValidGuid s = false) ∧
      (extractTimestamp epochMs s = .error .invalidFormat ↔
        isValidGuid s = false) ∧
      (isValidGuid s = true →
        guidToBuffer s = .ok (hexToBytesTrunc (stripDashes s)) ∧
        (hexToBytesTrunc (stripDashes s)).length = 16 ∧
        (∀ x ∈ hexToBytesTrunc (stripDashes s), x < 256) ∧
        (stripDashes s).mapM hexCharVal =
          some (nibblesOf (hexToBytesTrunc (stripDashes s)))) := by
  intro epochMs s
  by_cases hv : isValidGuid s = true
  · obtain ⟨l, hok, hlen, hb, hm⟩ := guidToBuffer_valid hv
    have hok' : guidToBuffer s = .ok (hexToBytesTrunc (stripDashes s)) := by
      rw [guidToBuffer, if_pos hv]
    have hl' : l = hexToBytesTrunc (stripDashes s) := by
      rw [hok'] at hok
      exact (Except.ok.injEq .. ▸ hok).symm
    refine ⟨?_, ?_, fun _ => ⟨hok', hl' ▸ hlen, hl' ▸ hb, hl' ▸ hm⟩⟩
    · constructor
      · intro he
        rw [hok'] at he
        exact absurd he (by simp)
      · intro hf
        rw [hv] at hf
        exact absurd hf (by simp)
    · constructor
      · intro he
        rw [extractTimestamp, hok] at he
        exact absurd he (by simp)
      · intro hf
        rw [hv] at hf
        exact absurd hf (by simp)
  · have hv' : isValidGuid s = false := by
      rcases Bool.eq_false_or_eq_true (isValidGuid s) with h | h
      · exact absurd h hv
      · exact h
    have herr : guidToBuffer s = .error .invalidFormat := by
      rw [guidToBuffer, if_neg (by rw [hv']; simp)]
    refine ⟨⟨fun _ => hv', fun _ => herr⟩, ⟨fun _ => hv', fun _ => ?_⟩,
      fun hf => absurd hf hv⟩
    rw [extractTimestamp, herr]

/-- C7 witness at the spec's known-answer identifier and epoch 0. -/
theorem claim7_error_behavior_witness :
    guidToBuffer (("550E8400-E29B-41D4-A716-446655440000").toList) =
      .ok (hexToBytesTrunc (stripDashes
        (("550E8400-E29B-41D4-A716-446655440000").toList))) ∧
    (hexToBytesTrunc (stripDashes
      (("550E8400-E29B-41D4-A716-446655440000").toList))).length = 16 ∧
    (∀ x ∈ hexToBytesTrunc (stripDashes
      (("550E8400-E29B-41D4-A716-446655440000").toList)), x < 256) ∧
    (stripDashes (("550E8400-E29B-41D4-A716-446655440000").toList)).mapM
      hexCharVal = some (nibblesOf (hexToBytesTrunc (stripDashes
        (("550E8400-E29B-41D4-A716-446655440000").toList)))) :=
  (claim7_error_behavior 0
    (("550E8400-E29B-41D4-A716-446655440000").toList)).2.2 (by decide)

/-- C5.  The sequence is 0 after construction and stays in `[0,15]` after
every successful `generate`; within a call, when the candidate tick equals
the stored `lastTimestamp` the sequence is incremented modulo 16 (shown
here on the non-wrapping path, where the call returns that tick), and when
it differs the sequence is reset to 0 and the candidate is stored as
`lastTimestamp`. -/
theorem claim5_sequence_invariant :
    (∀ (mo : Option (List Nat)) (eo : Option Int) (r : List Nat)
      (st : GenState), mkGenerator mo eo r = .ok st →
        st.sequence = 0 ∧ st.sequence ≤ 15) ∧
    (∀ (fuel : Nat) (clock : List Int) (rand : List Nat) (st : GenState)
      (g : List Char) (st' : GenState) (clock' : List Int)
      (rand' : List Nat),
        generate fuel clock rand st = some (g, st', clock', rand') →
        st'.sequence ≤ 15) ∧
    (∀ (fuel : Nat) (clock : List Int) (now : Int) (st : GenState),
        tickOf st.epochMs now = st.lastTimestamp →
        (st.sequence + 1) % 16 ≠ 0 →
        getTimestamp (fuel + 1) clock now st =
          some (st.lastTimestamp,
            ⟨st.machineId, st.epochMs, st.lastTimestamp,
              (st.sequence + 1) % 16⟩, clock)) ∧
    (∀ (fuel : Nat) (clock : List Int) (now : Int) (st : GenState),
        tickOf st.epochMs now ≠ st.lastTimestamp →
        getTimestamp (fuel + 1) clock now st =
          some (tickOf st.epochMs now,
            ⟨st.machineId, st.epochMs, tickOf st.epochMs now, 0⟩, clock)) := by
  refine ⟨?_, ?_, ?_, ?_⟩
  · intro mo eo r st h
    unfold mkGenerator at h
    by_cases hl : (match mo with
      | some m => m
      | none => r.take 4).length ≠ 4
    · rw [if_pos hl] at h
      exact absurd h (by simp)
    · rw [if_neg hl] at h
      simp only [Except.ok.injEq] at h
      rw [← h]
      exact ⟨rfl, Nat.zero_le 15⟩
  · intro fuel clock rand st g st' clock' rand' h
    match clock with
    | [] => simp [generate] at h
    | now :: clock₁ =>
      simp only [generate] at h
      match hts : getTimestamp fuel clock₁ now st with
      | none => rw [hts] at h; exact absurd h (by simp)
      | some (t, st₁, clock₂) =>
        rw [hts] at h
        have hseq := getTimestamp_seq_le fuel clock₁ now st t st₁ clock₂ hts
        match rand with
        | r0 :: r1 :: r2 :: r3 :: r4 :: r5 :: randRest =>
          simp only [Option.some.injEq, Prod.mk.injEq] at h
          obtain ⟨-, hst, -, -⟩ := h
          rw [← hst]
          exact hseq
        | [] => exact absurd h (by simp)
        | [r0] => exact absurd h (by simp)
        | [r0, r1] => exact absurd h (by simp)
        | [r0, r1, r2] => exact absurd h (by simp)
        | [r0, r1, r2, r3] => exact absurd h (by simp)
        | [r0, r1, r2, r3, r4] => exact absurd h (by simp)
  · intro fuel clock now st htick hmod
    obtain ⟨mid, e, lt, sq⟩ := st
    simp only at htick hmod
    simp only [getTimestamp, htick, if_pos, and_fifteen_eq_mod,
      if_neg hmod]
  · intro fuel clock now st htick
    obtain ⟨mid, e, lt, sq⟩ := st
    simp only at htick
    simp only [getTimestamp, if_neg htick]

/-- C5 witness: a freshly constructed generator, a generate call, a
same-tick resolution (sequence 4 → 5) and a new-tick resolution
(sequence reset to 0). -/
theorem claim5_sequence_invariant_witness :
    ((⟨[1, 2, 3, 4], 0, 0, 0⟩ : GenState).sequence = 0 ∧
      (⟨[1, 2, 3, 4], 0, 0, 0⟩ : GenState).sequence ≤ 15) ∧
    ((⟨[0, 0, 0, 0], 0, 30000, 0⟩ : GenState).sequence ≤ 15) ∧
    (getTimestamp 1 [] 3 ⟨[0, 0, 0, 0], 0, 30000, 4⟩ =
      some (30000, ⟨[0, 0, 0, 0], 0, 30000, 5⟩, [])) ∧
    (getTimestamp 1 [] 5 ⟨[0, 0, 0, 0], 0, 30000, 4⟩ =
      some (50000, ⟨[0, 0, 0, 0], 0, 50000, 0⟩, [])) :=
  ⟨claim5_sequence_invariant.1 (some [1, 2, 3, 4]) (some 0) []
      ⟨[1, 2, 3, 4], 0, 0, 0⟩ (by rfl),
    claim5_sequence_invariant.2.1 1 [3] [9, 9, 9, 9, 9, 9]
      ⟨[0, 0, 0, 0], 0, 0, 7⟩
      (formatGuid (packGuid 30000 0 [0, 0, 0, 0] [9, 9, 9, 9, 9, 9]))
      ⟨[0, 0, 0, 0], 0, 30000, 0⟩ [] [] (by rfl),
    claim5_sequence_invariant.2.2.1 0 [] 3 ⟨[0, 0, 0, 0], 0, 30000, 4⟩
      (by decide) (by decide),
    claim5_sequence_invariant.2.2.2 0 [] 5 ⟨[0, 0, 0, 0], 0, 30000, 4⟩
      (by decide)⟩

/-- C9.  Supplying a machine id that is not exactly 4 bytes makes
construction fail with the invalid-machine-id error; supplying the 4 bytes
`12 34 56 78` succeeds and `getMachineId` renders them as the 8 uppercase
hex characters `12345678`. -/
theorem claim9_machineId :
    (∀ (m : List Nat) (eo : Option Int) (r : List Nat), m.length ≠ 4 →
      mkGenerator (some m) eo r = .error .invalidMachineId) ∧
    (∀ (eo : Option Int) (r : List Nat) (st : GenState),
      mkGenerator (some [18, 52, 86, 120]) eo r = .ok st →
      getMachineId st = ("12345678").toList) := by
  constructor
  · intro m eo r h
    unfold mkGenerator
    rw [if_pos h]
  · intro eo r st h
    unfold mkGenerator at h
    rw [if_neg (by simp)] at h
    simp only [Except.ok.injEq] at h
    rw [← h]
    rfl

/-- C9 witness: a 3-byte id is rejected, and the 4-byte id `12 34 56 78`
yields machine-id text `12345678`. -/
theorem claim9_machineId_witness :
    mkGenerator (some [18, 52, 86]) none [] = .error .invalidMachineId ∧
    getMachineId ⟨[18, 52, 86, 120], 0, 0, 0⟩ = ("12345678").toList :=
  ⟨claim9_machineId.1 [18, 52, 86] none [] (by decide),
    claim9_machineId.2 (some 0) [] ⟨[18, 52, 86, 120], 0, 0, 0⟩ (by rfl)⟩

/-- C10.  When the candidate tick differs from the stored `lastTimestamp`
— in particular when the clock moved backwards and it is strictly smaller —
`generate` neither fails nor waits: `getTimestamp` returns at once without
touching the clock stream, the sequence is reset to 0, the smaller tick
overwrites `lastTimestamp`, and the emitted identifier packs that earlier
tick.  (Only a sequence wrap on an equal tick reaches the busy-wait.) -/
theorem claim10_backwards_clock :
    ∀ (fuel : Nat) (clock : List Int) (now : Int) (st : GenState),
      tickOf st.epochMs now ≠ st.lastTimestamp →
      (getTimestamp (fuel + 1) clock now st =
        some (tickOf st.epochMs now,
          ⟨st.machineId, st.epochMs, tickOf st.epochMs now, 0⟩, clock)) ∧
      (∀ (r0 r1 r2 r3 r4 r5 : Nat) (rand' : List Nat),
        generate (fuel + 1) (now :: clock)
          (r0 :: r1 :: r2 :: r3 :: r4 :: r5 :: rand') st =
        some (formatGuid (packGuid (tickOf st.epochMs now) 0 st.machineId
          [r0, r1, r2, r3, r4, r5]),
          ⟨st.machineId, st.epochMs, tickOf st.epochMs now, 0⟩, clock,
          rand')) := by
  intro fuel clock now st htick
  obtain ⟨mid, e, lt, sq⟩ := st
  simp only at htick
  have hts : getTimestamp (fuel + 1) clock now ⟨mid, e, lt, sq⟩ =
      some (tickOf e now, ⟨mid, e, tickOf e now, 0⟩, clock) := by
    simp only [getTimestamp, if_neg htick]
  refine ⟨hts, ?_⟩
  intro r0 r1 r2 r3 r4 r5 rand'
  simp only [generate, hts]

/-- C10 witness: stored tick 30000, clock reading mapping to the strictly
smaller tick 10000 — the call returns at once with sequence 0 and the
smaller tick stored and packed. -/
theorem claim10_backwards_clock_witness :
    (getTimestamp 1 [] 1 ⟨[0, 0, 0, 0], 0, 30000, 4⟩ =
      some (10000, ⟨[0, 0, 0, 0], 0, 10000, 0⟩, [])) ∧
    (generate 1 [1] [9, 9, 9, 9, 9, 9] ⟨[0, 0, 0, 0], 0, 30000, 4⟩ =
      some (formatGuid (packGuid 10000 0 [0, 0, 0, 0] [9, 9, 9, 9, 9, 9]),
        ⟨[0, 0, 0, 0], 0, 10000, 0⟩, [], [])) :=
  ⟨(claim10_backwards_clock 0 [] 1 ⟨[0, 0, 0, 0], 0, 30000, 4⟩
      (by decide)).1,
    (claim10_backwards_clock 0 [] 1 ⟨[0, 0, 0, 0], 0, 30000, 4⟩
      (by decide)).2 9 9 9 9 9 9 []⟩

/-- C8 counterexample.  The claim promises pairwise-distinct identifiers
for every positive count, with no condition on clock or randomness.  Under
the non-decreasing clock readings 1 ms and 268435457 ms (epoch 0) the two
resolved ticks are 10000 and 10000 + 625·2^32, which collide modulo 2^32;
with equal random bytes `generateBatch 2` returns the same identifier
twice. -/
theorem claim8_batch_counterexample :
    ((1:Int) ≤ 268435457) ∧
    generateBatch 5 2 [1, 268435457] (List.replicate 12 0)
      ⟨[0, 0, 0, 0], 0, 0, 0⟩ =
      some (.ok ([("00000000-2710-0000-0000-000000000000").toList,
        ("00000000-2710-0000-0000-000000000000").toList],
        ⟨[0, 0, 0, 0], 0, 2684354570000, 0⟩, [], [])) ∧
    ¬ List.Pairwise (fun a b : List Char => a ≠ b)
      [("00000000-2710-0000-0000-000000000000").toList,
       ("00000000-2710-0000-0000-000000000000").toList] := by
  refine ⟨by decide, by decide, ?_⟩
  intro hpw
  exact (List.pairwise_cons.1 hpw).1 _ (by decide) rfl

/-- C8 (amended).  `generateBatch` fails with the invalid-count error and
returns no partial batch for every count ≤ 0; for positive counts a
completed batch has exactly `count` valid identifiers, and they are
pairwise distinct provided the clock readings are non-decreasing and every
reading's tick lies in `[0, 2^32)` (the unamended distinctness fails, see
the counterexample, because `generate` packs only the tick modulo 2^32). -/
theorem claim8_batch :
    ∀ (fuel : Nat) (count : Int) (clock : List Int) (rand : List Nat)
      (st : GenState),
      clock.Pairwise (· ≤ ·) →
      (∀ x ∈ clock, 0 ≤ tickOf st.epochMs x ∧
        tickOf st.epochMs x < 4294967296) →
      (∀ x ∈ rand, x < 256) →
      st.lastTimestamp = 0 → st.sequence = 0 →
      (count ≤ 0 → generateBatch fuel count clock rand st =
        some (.error .invalidCount)) ∧
      (∀ gs st' clock' rand',
        generateBatch fuel count clock rand st =
          some (.ok (gs, st', clock', rand')) →
        (gs.length : Int) = count ∧ (∀ g ∈ gs, isValidGuid g = true) ∧
        gs.Pairwise (· ≠ ·)) := by
  intro fuel count clock rand st hp hwin hrb hlast hseq
  constructor
  · intro hc
    rw [generateBatch, if_pos hc]
  · intro gs st' clock' rand' h
    by_cases hc : count ≤ 0
    · rw [generateBatch, if_pos hc] at h
      simp at h
    · rw [generateBatch, if_neg hc] at h
      match hgl : generateList fuel count.toNat clock rand st with
      | none => rw [hgl] at h; exact absurd h (by simp)
      | some (gs₂, st₂, clock₂, rand₂) =>
        rw [hgl] at h
        simp only [Option.map_some', Option.some.injEq, Except.ok.injEq,
          Prod.mk.injEq] at h
        obtain ⟨rfl, -, -, -⟩ := h
        have hanch : ∃ w0, st.lastTimestamp = tickOf st.epochMs w0 ∧
            ∀ x ∈ clock, w0 ≤ x := by
          refine ⟨st.epochMs, by rw [hlast]; simp [tickOf], ?_⟩
          intro x hx
          have h1 := (hwin x hx).1
          unfold tickOf at h1
          omega
        obtain ⟨hlen, hval, hchain⟩ := generateList_spec count.toNat fuel
          clock rand st _ st₂ clock₂ rand₂ hp hwin hrb
          (by rw [hseq]; exact Nat.zero_le 15)
          (by rw [hlast]) (by rw [hlast]; decide) hanch hgl
        refine ⟨by rw [hlen]; omega, hval, ?_⟩
        have hpw := List.chain'_iff_pairwise.1 hchain.tail
        have hpw' := List.pairwise_map.1 hpw
        exact hpw'.imp
          (fun hab heq => absurd (heq ▸ hab) (lt_irrefl _))

/-- C8 witness: count 0 is rejected; a 2-batch under the in-window
non-decreasing clock [1, 2] yields two distinct valid identifiers. -/
theorem claim8_batch_witness :
    (generateBatch 5 0 [] [] ⟨[0, 0, 0, 0], 0, 0, 0⟩ =
      some (.error .invalidCount)) ∧
    ((([("00000000-2710-0000-0000-000000000000").toList,
        ("00000000-4E20-0000-0000-000000000000").toList] :
        List (List Char)).length : Int) = 2 ∧
      (∀ g ∈ ([("00000000-2710-0000-0000-000000000000").toList,
        ("00000000-4E20-0000-0000-000000000000").toList] :
        List (List Char)), isValidGuid g = true) ∧
      ([("00000000-2710-0000-0000-000000000000").toList,
        ("00000000-4E20-0000-0000-000000000000").toList] :
        List (List Char)).Pairwise (· ≠ ·)) :=
  ⟨(claim8_batch 5 0 [] [] ⟨[0, 0, 0, 0], 0, 0, 0⟩ (by decide) (by decide)
      (by decide) rfl rfl).1 (by decide),
    (claim8_batch 5 2 [1, 2] (List.replicate 12 0) ⟨[0, 0, 0, 0], 0, 0, 0⟩
      (by decide) (by decide) (by decide) rfl rfl).2
      [("00000000-2710-0000-0000-000000000000").toList,
        ("00000000-4E20-0000-0000-000000000000").toList]
      ⟨[0, 0, 0, 0], 0, 20000, 0⟩ [] [] (by rfl)⟩

/-- C1 (violated by the code).  The claimed sortable-prefix invariant
fails under a non-decreasing clock: `>>> 16` in `generate` first truncates
the tick to 32 bits, so when consecutive readings 429496 ms and 429497 ms
(epoch 0) straddle the 2^32-tick boundary, the second identifier's first
10 bytes are lexicographically *smaller* than the first's. -/
theorem claim1_sortable_prefix_violation :
    ((429496:Int) ≤ 429497) ∧
    generateList 5 2 [429496, 429497] (List.replicate 12 1)
      ⟨[18, 52, 86, 120], 0, 0, 0⟩ =
      some ([("0000FFFF-E380-1230-5678-010101010101").toList,
        ("00000000-0A90-1230-5678-010101010101").toList],
        ⟨[18, 52, 86, 120], 0, 4294970000, 0⟩, [], []) ∧
    (guidToBuffer (("0000FFFF-E380-1230-5678-010101010101").toList)).map
      (fun b => b.take 10) =
      .ok [0, 0, 255, 255, 227, 128, 18, 48, 86, 120] ∧
    (guidToBuffer (("00000000-0A90-1230-5678-010101010101").toList)).map
      (fun b => b.take 10) =
      .ok [0, 0, 0, 0, 10, 144, 18, 48, 86, 120] ∧
    lexLeBytes [0, 0, 255, 255, 227, 128, 18, 48, 86, 120]
      [0, 0, 0, 0, 10, 144, 18, 48, 86, 120] = false := by
  decide

/-- C3 (violated by the code).  At the reachable tick 4294970000 ≥ 2^32
(still far below 2^48) the four bytes written at offsets 0-3 are the JS
`>>> 16` of the 32-bit-truncated tick — all zero — not the tick's high 32
bits, which would be the bytes `00 01 00 00`. -/
theorem claim3_pack_high_bits_violation :
    ((0:Int) ≤ 4294970000 ∧ (4294970000:Int) < 281474976710656) ∧
    (packGuid 4294970000 0 [18, 52, 86, 120] [1, 2, 3, 4, 5, 6]).take 4 =
      [0, 0, 0, 0] ∧
    be32 (Int.toNat 4294970000 / 65536) = [0, 1, 0, 0] ∧
    ([0, 0, 0, 0] : List Nat) ≠ [0, 1, 0, 0] := by
  decide

/-- C4 (violated by the code).  For the valid identifier
`00008000-0000-0000-0000-000000000000` (whose first 6 bytes encode the
48-bit value 2^31) with epoch 0, `extractTimestamp` returns
epoch − 2^31/10000 ms, because the JS `(high << 16) | low` reassembly
wraps to a signed 32-bit value; the claim demands epoch + 2^31/10000 ms. -/
theorem claim4_extract_violation :
    extractTimestamp 0 (("00008000-0000-0000-0000-000000000000").toList) =
      .ok ((-2147483648 : ℚ) / 10000) ∧
    (guidToBuffer (("00008000-0000-0000-0000-000000000000").toList)).map
      tick48 = .ok 2147483648 ∧
    ((-2147483648 : ℚ) / 10000) ≠ ((0 : ℚ) + (2147483648 : ℚ) / 10000) := by
  have hbuf : guidToBuffer (("00008000-0000-0000-0000-000000000000").toList) =
      .ok [0, 0, 128, 0, 0, 0, 0, 0, 0, 0, 0, 0, 0, 0, 0, 0] := by decide
  have h1 : toInt32
      ((readUInt32BE [0, 0, 128, 0, 0, 0, 0, 0, 0, 0, 0, 0, 0, 0, 0, 0] 0 :
        Int) * 65536 +
       (readUInt16BE [0, 0, 128, 0, 0, 0, 0, 0, 0, 0, 0, 0, 0, 0, 0, 0] 4 :
        Int)) = -2147483648 := by decide
  have h2 : ((0 : Int) : ℚ) + ((-2147483648 : Int) : ℚ) / 10000 =
      (-2147483648 : ℚ) / 10000 := by
    push_cast
    ring
  refine ⟨?_, by decide, by norm_num⟩
  simp only [extractTimestamp, hbuf, h1, h2]

end SeqGuid
